import Mathlib

/-!
# Verification of the squishy AppImage library

Shallow embedding of the squishy crate (`src/squishy/src/lib.rs`,
`src/squishy/src/appimage.rs`, `src/squishy/src/dwarfs.rs`,
`src/squishy/src/error.rs`) and proofs about its offset location,
format detection, entry traversal, symlink resolution, resource
discovery, and extraction logic.

Conventions of the embedding:
* Rust strings and paths (`String`, `Path`, `PathBuf`, `OsStr`) are
  modelled as `List Char`.  The Rust `str` methods used by the code
  (`to_lowercase`, `starts_with`, `ends_with`, `contains`) are given
  executable ASCII models below.
* Byte streams and files are `List Nat` (one `Nat` per byte).
* The external codecs (backhand for SquashFS, the dwarfs crate, goblin
  for ELF) are out of scope per the spec; their *outputs* (node lists,
  inode trees, parsed ELF headers) are the inputs of the embedded
  functions, exactly as the squishy code consumes them.
* Functions that recurse on attacker-controlled data without a
  structural bound (the unified `AppImage::resolve_symlink`, which has
  no visited set) are embedded with an explicit recursion budget; the
  outer `Option` layer is `none` exactly when no finite recursion depth
  completes, i.e. when the Rust original does not terminate.
-/

/-! ## String model (Rust `str` methods, ASCII) -/

/-- Bytes of a string literal, as the `List Char` path representation. -/
def str (s : String) : List Char := s.data

/-- ASCII lowering of one character (model of Rust `char` lowering on
ASCII input; archive paths in this development are ASCII). -/
def lower_char (c : Char) : Char :=
  if 65 ≤ c.toNat ∧ c.toNat ≤ 90 then Char.ofNat (c.toNat + 32) else c

/-- Model of Rust `str::to_lowercase`. -/
def to_lowercase (s : List Char) : List Char := s.map lower_char

/-- Model of Rust `str::starts_with`: `begins_with s p` holds when `p`
is an initial segment of `s`. -/
def begins_with : List Char → List Char → Bool
  | _, [] => true
  | [], _ :: _ => false
  | c :: s, p :: ps => c == p && begins_with s ps

/-- Model of Rust `str::ends_with`. -/
def ends_with (s suffix : List Char) : Bool :=
  begins_with s.reverse suffix.reverse

/-- Model of Rust `str::contains` for a string pattern. -/
def contains_sub : List Char → List Char → Bool
  | [], pat => begins_with [] pat
  | c :: s, pat => begins_with (c :: s) pat || contains_sub s pat

/-! ## Error model (`src/squishy/src/error.rs`)

`SquishyError`'s string / path payloads are dropped; only the variant
matters to the verified properties. -/

inductive SquishyErr where
  | noSquashFsFound
  | noDwarFsFound
  | noFilesystemFound
  | ioFailure
  | invalidSquashFS
  | invalidDwarFS
  | symlinkError
  | fileNotFound
deriving DecidableEq, Repr

/-- Decidable equality for `Except` results, used to evaluate the
resolver outcomes on concrete archives. -/
instance {ε α : Type} [DecidableEq ε] [DecidableEq α] :
    DecidableEq (Except ε α) := fun x y =>
  match x, y with
  | .ok a, .ok b =>
    if h : a = b then .isTrue (congrArg Except.ok h)
    else .isFalse fun hh => h (Except.ok.inj hh)
  | .error a, .error b =>
    if h : a = b then .isTrue (congrArg Except.error h)
    else .isFalse fun hh => h (Except.error.inj hh)
  | .ok _, .error _ => .isFalse fun hh => Except.noConfusion hh
  | .error _, .ok _ => .isFalse fun hh => Except.noConfusion hh

/-! ## OffsetLocator, structural algorithm (`appimage.rs::get_offset`)

`get_offset` reads the raw ELF header, then hands the header bytes to
goblin (`Elf::parse`, an external collaborator) and computes the offset
from goblin's parsed header and section table.  The embedding works on
the parse result; `ElfData` is goblin's output for a file whose ELF
header and full section header table parsed successfully. -/

structure SectionHeader where
  sh_offset : Nat
  sh_size : Nat
deriving DecidableEq, Repr

structure ElfData where
  e_shoff : Nat
  e_shentsize : Nat
  e_shnum : Nat
  section_headers : List SectionHeader
deriving DecidableEq, Repr

/-- Source `appimage.rs:51-80`.  `section_table_end` is
`e_shoff + e_shentsize * e_shnum`; `last_section_end` is
`sh_offset + sh_size` of the *last* element of goblin's
`section_headers` list (`.last()` in the source), `0` when the table is
empty; the result is their maximum. -/
def get_offset (elf : ElfData) : Nat :=
  let section_table_end := elf.e_shoff + elf.e_shentsize * elf.e_shnum
  let last_section_end :=
    (elf.section_headers.getLast?.map fun s => s.sh_offset + s.sh_size).getD 0
  max section_table_end last_section_end

/-- The offset computation in the words of the spec (§4.1): the second
candidate is the maximum of `sh_offset + sh_size` over *all* section
headers.  Used to compare the spec's claim against `get_offset`. -/
def get_offset_spec_words (elf : ElfData) : Nat :=
  let section_table_end := elf.e_shoff + elf.e_shentsize * elf.e_shnum
  let last_section_end :=
    (elf.section_headers.map fun s => s.sh_offset + s.sh_size).foldr max 0
  max section_table_end last_section_end

/-- A parsed ELF whose declaration-order-last section is not the one
ending last in the file: table at 64..192 (two 64-byte entries),
sections ending at 1050 and 205, declared in that order. -/
def elfC1 : ElfData :=
  { e_shoff := 64, e_shentsize := 64, e_shnum := 2
    section_headers := [⟨1000, 50⟩, ⟨200, 5⟩] }

/-! ## OffsetLocator, brute-force fallback scans

`lib.rs::find_squashfs_offset` (lines 105-119) repeatedly `read_exact`s
a 4-byte window and compares it with the SquashFS magic; it never seeks
back, so each failed comparison advances the stream by the full window
length.  `dwarfs.rs::find_dwarfs_offset` (lines 85-97) reads a 6-byte
window and seeks back 5 bytes after a failed comparison ("Move back 5
bytes to allow for overlapping matches"), advancing by one byte.  Both
fail once `read_exact` fails at end of file. -/

def SQUASHFS_MAGIC : List Nat := [104, 115, 113, 115]

def DWARFS_MAGIC : List Nat := [68, 87, 65, 82, 70, 83]

/-- The window of `n` bytes of `file` starting at `pos` (what a
successful `read_exact` at stream position `pos` returns). -/
def window (file : List Nat) (pos n : Nat) : List Nat :=
  (file.drop pos).take n

/-- Source `lib.rs:105-119`, the unread part of the stream and the current
stream position made explicit.  `read_exact` succeeds exactly when at
least 4 bytes remain, yielding the next 4 bytes; a non-matching window
leaves the stream 4 bytes further (no seek-back); a failed `read_exact`
ends the loop with `NoSquashFsFound` (`none` here). -/
def squashfs_scan : List Nat → Nat → Option Nat
  | a :: b :: c :: d :: rest, pos =>
    if [a, b, c, d] = SQUASHFS_MAGIC then some pos
    else squashfs_scan rest (pos + 4)
  | _, _ => none

/-- Source `lib.rs:105-119` started at stream position 0. -/
def find_squashfs_offset (file : List Nat) : Option Nat :=
  squashfs_scan file 0

/-- Source `dwarfs.rs:85-97`, the unread part of the stream and the current
stream position made explicit.  After a non-matching 6-byte window the
stream seeks back 5 bytes ("Move back 5 bytes to allow for overlapping
matches"), so the next window starts one byte further. -/
def dwarfs_scan : List Nat → Nat → Option Nat
  | [], _ => none
  | c :: t, pos =>
    if (c :: t).take 6 = DWARFS_MAGIC then some pos
    else dwarfs_scan t (pos + 1)

/-- Source `dwarfs.rs:85-97` started at stream position 0. -/
def find_dwarfs_offset (file : List Nat) : Option Nat :=
  dwarfs_scan file 0

/-! ## Consistency of a raw host file with goblin's parse
(`appimage.rs:54-68`)

`get_offset` itself reads `section_table_offset` from bytes 40..48 and
`section_count` from bytes 60..62 of the raw file (little endian) to
size its read buffer, before goblin parses the same bytes.  For a
concrete host file / parsed-ELF pair, `elf_consistent` checks that the
goblin output used by `get_offset` matches those raw bytes (goblin
itself is external). -/

/-- Little-endian read of `k` bytes of `file` starting at `off`. -/
def read_le (file : List Nat) (off : Nat) : Nat → Nat
  | 0 => 0
  | k + 1 => file.getD off 0 + 256 * read_le file (off + 1) k

/-- The raw reads `get_offset` performs agree with the parsed fields it
uses, and the file is long enough for both `read_exact` calls. -/
def elf_consistent (file : List Nat) (elf : ElfData) : Bool :=
  64 ≤ file.length &&
  read_le file 40 8 == elf.e_shoff &&
  read_le file 58 2 == elf.e_shentsize &&
  read_le file 60 2 == elf.e_shnum &&
  read_le file 40 8 + 64 * read_le file 60 2 ≤ file.length

/-! ## SquashFS backend (`lib.rs`)

backhand (external codec) supplies `reader.files()`: a flat list of
nodes, each with a `fullpath`, a permission header and an inner
classification.  A file node carries its length and, for `read_file`,
the byte-read outcomes its decompressing reader will yield (`Ok` byte
or `Err`), which is the `reader.bytes()` iterator of the source. -/

inductive SInner where
  | file (len : Nat) (stream : List (Except Unit Nat))
  | dir
  | symlink (link : List Char)
  | other
deriving Repr

/-- One backhand node (`reader.files()` element): `fullpath`,
`header.permissions`, and the inner node. -/
structure SNode where
  fullpath : List Char
  permissions : Nat
  inner : SInner
deriving Repr

inductive SEntryKind where
  | file
  | directory
  | symlink (target : List Char)
  | unknown
deriving DecidableEq, Repr

/-- Source `lib.rs::SquashFSEntry` (the `&SquashfsFileReader` payload of
`EntryKind::File` and the `NodeHeader` are dropped; `permissions` keeps
the header bits used by extraction). -/
structure SquashFSEntry where
  path : List Char
  size : Nat
  permissions : Nat
  kind : SEntryKind
deriving DecidableEq, Repr

def SEntryKind.is_symlink : SEntryKind → Bool
  | .symlink _ => true
  | _ => false

def SInner.is_file : SInner → Bool
  | .file _ _ => true
  | _ => false

namespace SquashFS

/-- Source `lib.rs:122-145` (`SquashFS::entries`): map each backhand node to a
`SquashFSEntry`.  Note the symlink arm: the stored target is
`format!("/{}", symlink.link.display())`, i.e. `'/'` prepended to the
raw recorded target. -/
def entries (nodes : List SNode) : List SquashFSEntry :=
  nodes.map fun node =>
    { path := node.fullpath
      size := match node.inner with
        | .file len _ => len
        | _ => 0
      permissions := node.permissions
      kind := match node.inner with
        | .file _ _ => .file
        | .dir => .directory
        | .symlink link => .symlink ('/' :: link)
        | .other => .unknown }

/-- Source `lib.rs:197-216` (`SquashFS::read_file`) byte-collection loop
`while let Some(Ok(byte)) = reader.next()`: keep bytes while the reader
yields `Ok`, stop silently at the first `Err` or at end of stream. -/
def stream_prefix_ok : List (Except Unit Nat) → List Nat
  | .ok b :: rest => b :: stream_prefix_ok rest
  | _ => []

/-- Source `lib.rs:197-216`: scan the node list; the first node whose
`fullpath` equals `path` *and* is a file is read via the loop above; a
matching non-file node is skipped (the `if let` has no else); if no
node qualifies the result is `FileNotFound`. -/
def read_file (nodes : List SNode) (path : List Char) :
    Except SquishyErr (List Nat) :=
  match nodes with
  | [] => .error .fileNotFound
  | node :: rest =>
    if node.fullpath = path then
      match node.inner with
      | .file _ stream => .ok (stream_prefix_ok stream)
      | _ => read_file rest path
    else read_file rest path

/-- Source `lib.rs:290-309` (`SquashFS::follow_symlink`) with the recursion
depth made explicit (outer `none` = depth exhausted; the cycle check
makes any sufficient depth equivalent).  `visited.insert` returning
`false` on a present element is the membership test; `find_entries`
with a path predicate is `find?` over the entries. -/
def follow_symlink (es : List SquashFSEntry) :
    Nat → List Char → List (List Char) →
    Option (Except SquishyErr (Option SquashFSEntry))
  | 0, _, _ => none
  | fuel + 1, target, visited =>
    if target ∈ visited then some (.error .symlinkError)
    else
      match es.find? fun e => e.path == target with
      | some te =>
        match te.kind with
        | .symlink next => follow_symlink es fuel next (target :: visited)
        | _ => some (.ok (some te))
      | none => some (.ok none)

/-- Source `lib.rs:270-279` (`SquashFS::resolve_symlink`): non-symlink entries
return `None` immediately; a symlink seeds the visited set with the
entry's own path and follows the chain.  The depth `es.length + 1`
suffices for every terminating run (each step visits a fresh entry
path). -/
def resolve_symlink (es : List SquashFSEntry) (entry : SquashFSEntry) :
    Option (Except SquishyErr (Option SquashFSEntry)) :=
  match entry.kind with
  | .symlink target => follow_symlink es (es.length + 1) target [entry.path]
  | _ => some (.ok none)

end SquashFS

/-! ## DwarFS backend (`dwarfs.rs`)

The dwarfs crate (external codec) exposes the root directory as a list
of named children; each child is an inode carrying its POSIX mode bits
and classification.  A file inode carries its chunk lengths
(`f.as_chunks().total_size()` is their sum). -/

inductive DInode where
  | file (mode : Nat) (chunks : List Nat)
  | directory (mode : Nat) (children : List (List Char × DInode))
  | symlink (mode : Nat) (target : List Char)
  | device (mode : Nat)
  | ipc (mode : Nat)
  | other (mode : Nat)
deriving Repr

inductive DwarFSEntryKind where
  | file
  | directory
  | symlink (target : List Char)
  | device
  | ipc
  | unknown
deriving DecidableEq, Repr

/-- Source `dwarfs.rs::DwarFSEntry`. -/
structure DwarFSEntry where
  path : List Char
  size : Nat
  mode : Nat
  kind : DwarFSEntryKind
deriving DecidableEq, Repr

def DwarFSEntryKind.is_symlink : DwarFSEntryKind → Bool
  | .symlink _ => true
  | _ => false

/-- Rust `PathBuf::join` (`base_path.join(name)`): an absolute `name`
replaces the base; otherwise a single separator joins them. -/
def path_join (base name : List Char) : List Char :=
  if begins_with name (str "/") then name
  else if ends_with base (str "/") then base ++ name
  else base ++ '/' :: name

namespace DwarFS

/-- Source `dwarfs.rs:105-146` (`DwarFS::walk_dir`): for each child of a
directory, in order: a directory child emits its own `Directory` entry
followed by the walk of its children (pre-order); a file child emits a
`File` entry whose size is the sum of its chunk lengths; symlink,
device and ipc children emit their entry with the target recorded
verbatim; anything else is `Unknown`. -/
def walk_dir : List (List Char × DInode) → List Char → List DwarFSEntry
  | [], _ => []
  | (name, inode) :: rest, base =>
    let path := path_join base name
    (match inode with
     | .directory m children =>
       { path := path, size := 0, mode := m, kind := .directory } ::
         walk_dir children path
     | .file m chunks =>
       [{ path := path, size := chunks.sum, mode := m, kind := .file }]
     | .symlink m target =>
       [{ path := path, size := 0, mode := m, kind := .symlink target }]
     | .device m => [{ path := path, size := 0, mode := m, kind := .device }]
     | .ipc m => [{ path := path, size := 0, mode := m, kind := .ipc }]
     | .other m => [{ path := path, size := 0, mode := m, kind := .unknown }])
      ++ walk_dir rest base

/-- Source `dwarfs.rs:100-102` (`DwarFS::entries`): walk the root's children
with base path `/`. -/
def entries (root_children : List (List Char × DInode)) : List DwarFSEntry :=
  walk_dir root_children (str "/")

/-- All symlink targets recorded anywhere in a dwarfs tree, verbatim as
the codec stores them. -/
def tree_targets : List (List Char × DInode) → List (List Char)
  | [] => []
  | (_, inode) :: rest =>
    (match inode with
     | .directory _ children => tree_targets children
     | .symlink _ target => [target]
     | _ => []) ++ tree_targets rest

/-- Source `dwarfs.rs:250-271` (`DwarFS::follow_symlink`), recursion depth
explicit exactly as for the SquashFS resolver. -/
def follow_symlink (es : List DwarFSEntry) :
    Nat → List Char → List (List Char) →
    Option (Except SquishyErr (Option DwarFSEntry))
  | 0, _, _ => none
  | fuel + 1, target, visited =>
    if target ∈ visited then some (.error .symlinkError)
    else
      match es.find? fun e => e.path == target with
      | some te =>
        match te.kind with
        | .symlink next => follow_symlink es fuel next (target :: visited)
        | _ => some (.ok (some te))
      | none => some (.ok none)

/-- Source `dwarfs.rs:237-246` (`DwarFS::resolve_symlink`). -/
def resolve_symlink (es : List DwarFSEntry) (entry : DwarFSEntry) :
    Option (Except SquishyErr (Option DwarFSEntry)) :=
  match entry.kind with
  | .symlink target => follow_symlink es (es.length + 1) target [entry.path]
  | _ => some (.ok none)

end DwarFS

/-! ## Unified AppImage layer (`appimage.rs`)

`AppImage::entries()` maps either backend's entries onto
`AppImageEntry`; the resource-discovery functions and the unified
resolver only consume that entry view plus the owned filter, so the
embedding carries the materialized unified entry list. -/

inductive AppImageEntryKind where
  | file
  | directory
  | symlink (target : List Char)
  | unknown
deriving DecidableEq, Repr

structure AppImageEntry where
  path : List Char
  size : Nat
  kind : AppImageEntryKind
deriving DecidableEq, Repr

def AppImageEntryKind.is_symlink : AppImageEntryKind → Bool
  | .symlink _ => true
  | _ => false

structure AppImage where
  filter : Option (List Char)
  entries : List AppImageEntry

/-- Rust `Iterator::max_by_key` over entry sizes: the *last* of several
equally-maximal elements wins. -/
def max_by_key_size (es : List AppImageEntry) : Option AppImageEntry :=
  es.foldl
    (fun acc e =>
      match acc with
      | none => some e
      | some m => if m.size ≤ e.size then some e else some m)
    none

namespace AppImage

/-- Source `appimage.rs:231-261` (`AppImage::entries` over the SquashFS
backend): re-tag each `SquashFSEntry`; `Device`/`Ipc` do not occur in
the SquashFS kind set. -/
def entries_of_squashfs (es : List SquashFSEntry) : List AppImageEntry :=
  es.map fun e =>
    { path := e.path
      size := e.size
      kind := match e.kind with
        | .file => .file
        | .directory => .directory
        | .symlink target => .symlink target
        | .unknown => .unknown }

/-- Source `appimage.rs:231-261` (`AppImage::entries` over the DwarFS
backend): `Device`, `Ipc` and `Unknown` all collapse to `Unknown`. -/
def entries_of_dwarfs (es : List DwarFSEntry) : List AppImageEntry :=
  es.map fun e =>
    { path := e.path
      size := e.size
      kind := match e.kind with
        | .file => .file
        | .directory => .directory
        | .symlink target => .symlink target
        | _ => .unknown }

/-- Source `appimage.rs:310-320` (`AppImage::resolve_symlink`), recursion depth
explicit.  Unlike the backend resolvers there is *no visited set*: a
symlink looks up its target among the entries and recurses on the
found entry; a non-symlink returns itself (`_ => Some(entry)`); a
missing target returns `None`.  The outer `none` means the given depth
did not complete — if that holds for every depth, the source function
recurses forever. -/
def resolve_symlink_fuel (es : List AppImageEntry) :
    Nat → AppImageEntry → Option (Option AppImageEntry)
  | 0, _ => none
  | fuel + 1, entry =>
    match entry.kind with
    | .symlink target =>
      match es.find? fun e => e.path == target with
      | some e => resolve_symlink_fuel es fuel e
      | none => some none
    | _ => some (some entry)

/-- The unified resolver at the depth budget `entries.length + 1`,
which completes whenever the source function terminates (an acyclic
chain visits pairwise-distinct entries); a budget overrun
(non-termination of the source, see the cycle analysis) collapses to
`none`. -/
def resolve_symlink (a : AppImage) (entry : AppImageEntry) :
    Option AppImageEntry :=
  (resolve_symlink_fuel a.entries (a.entries.length + 1) entry).join

/-- Source `appimage.rs:329-333` (`AppImage::filter_path`): `None` passes
everything, `Some f` requires `f` to occur verbatim in the (already
lower-cased) path handed in by the callers. -/
def filter_path (a : AppImage) (path : List Char) : Bool :=
  match a.filter with
  | none => true
  | some f => contains_sub path f

/-- Source `appimage.rs:323-326` (`AppImage::search_diricon`): exact,
case-sensitive match on `/.DirIcon`, no filter. -/
def search_diricon (a : AppImage) : Option AppImageEntry :=
  a.entries.find? fun e => e.path == str "/.DirIcon"

/-- Source `appimage.rs:336-357` (`AppImage::find_largest_icon_path`): largest
`.png` whose lower-cased path starts with `/usr/share/icons/` and
passes the filter; if none, the first `.svg` whose lower-cased path
starts with `/usr/share/icons` — note the missing trailing slash in
the source's svg branch. -/
def find_largest_icon_path (a : AppImage) : Option AppImageEntry :=
  let png_entry := max_by_key_size <| a.entries.filter fun e =>
    let p := to_lowercase e.path
    begins_with p (str "/usr/share/icons/") && filter_path a p &&
      ends_with p (str ".png")
  match png_entry with
  | some e => some e
  | none =>
    a.entries.find? fun e =>
      let p := to_lowercase e.path
      begins_with p (str "/usr/share/icons") && filter_path a p &&
        ends_with p (str ".svg")

/-- Source `appimage.rs:360-367` (`AppImage::find_png_icon`): largest filtered
`.png` anywhere. -/
def find_png_icon (a : AppImage) : Option AppImageEntry :=
  max_by_key_size <| a.entries.filter fun e =>
    let p := to_lowercase e.path
    filter_path a p && ends_with p (str ".png")

/-- Source `appimage.rs:370-375` (`AppImage::find_svg_icon`): first filtered
`.svg` anywhere. -/
def find_svg_icon (a : AppImage) : Option AppImageEntry :=
  a.entries.find? fun e =>
    let p := to_lowercase e.path
    filter_path a p && ends_with p (str ".svg")

/-- Source `appimage.rs:274-280` (`AppImage::find_icon`): the `or_else` chain
DirIcon → icons dir → any png → any svg, then the winner goes through
the unified resolver. -/
def find_icon (a : AppImage) : Option AppImageEntry :=
  ((((search_diricon a).orElse fun _ => find_largest_icon_path a).orElse
      fun _ => find_png_icon a).orElse
      fun _ => find_svg_icon a).bind
    fun entry => resolve_symlink a entry

/-- The predicate of `appimage.rs:287-290`: lower-cased path passes the
filter and ends with `.desktop`. -/
def desktop_pred (a : AppImage) (e : AppImageEntry) : Bool :=
  let p := to_lowercase e.path
  filter_path a p && ends_with p (str ".desktop")

/-- Source `appimage.rs:286-293` (`AppImage::find_desktop`): first entry
satisfying `desktop_pred`, passed through the unified resolver. -/
def find_desktop (a : AppImage) : Option AppImageEntry :=
  (a.entries.find? (desktop_pred a)).bind fun entry => resolve_symlink a entry

/-- Source `appimage.rs:299-307` (`AppImage::find_appstream`): first filtered
entry whose lower-cased path ends with `appdata.xml` or `metainfo.xml`,
resolved. -/
def find_appstream (a : AppImage) : Option AppImageEntry :=
  (a.entries.find? fun e =>
      let p := to_lowercase e.path
      filter_path a p &&
        (ends_with p (str "appdata.xml") || ends_with p (str "metainfo.xml"))).bind
    fun entry => resolve_symlink a entry

end AppImage

/-! ## Extraction with permission preservation (C8 trace model)

Each permission-preserving write path is a straight-line sequence of
filesystem effects; the embedding records the destination-affecting
effects in source order, cutting the sequence at the point where the
byte stream fails (the `?` operator propagates the error).  `ok` tells
whether the streaming step (the `io::copy` in `lib.rs`, the `write_all`
in `dwarfs.rs` / `appimage.rs`) succeeds. -/

inductive FsEvent where
  | create
  | setPerms (mode : Nat)
  | streamDone
  | streamFailed
deriving DecidableEq, Repr

/-- Source `lib.rs:246-260` (`SquashFS::write_file_with_permissions`):
`File::create(&dest)`, then `fs::set_permissions(dest, mode)`, then the
buffered `io::copy` of the entry bytes.  The permission bits are set
*before* the stream runs. -/
def SquashFS.write_file_with_permissions_trace (mode : Nat) (ok : Bool) :
    List FsEvent × Bool :=
  (FsEvent.create :: FsEvent.setPerms mode ::
    (if ok then [FsEvent.streamDone] else [FsEvent.streamFailed]), ok)

/-- Source `dwarfs.rs:219-227` (`DwarFS::write_file_with_permissions`):
`write_file` (read the contents, `File::create`, `write_all`), and only
after it returned `Ok` the `fs::set_permissions` call. -/
def DwarFS.write_file_with_permissions_trace (mode : Nat) (ok : Bool) :
    List FsEvent × Bool :=
  if ok then ([FsEvent.create, FsEvent.streamDone, FsEvent.setPerms mode], true)
  else ([FsEvent.create, FsEvent.streamFailed], false)

/-- Source `appimage.rs:438-449` (`AppImage::write_entry_with_permissions`):
`write_entry` (read contents, `File::create`, `write_all`), then
`fs::set_permissions` only on success. -/
def AppImage.write_entry_with_permissions_trace (mode : Nat) (ok : Bool) :
    List FsEvent × Bool :=
  if ok then ([FsEvent.create, FsEvent.streamDone, FsEvent.setPerms mode], true)
  else ([FsEvent.create, FsEvent.streamFailed], false)

/-- An effect trace applies permissions only after the byte stream has
completed: scanning left to right, no `setPerms` occurs before a
`streamDone`. -/
def perms_only_after_stream : List FsEvent → Bool
  | [] => true
  | .streamDone :: _ => true
  | .setPerms _ :: _ => false
  | .create :: rest => perms_only_after_stream rest
  | .streamFailed :: rest => perms_only_after_stream rest

/-! ## Concrete archives and host files used by the claim theorems -/

/-- Host file for the offset-agreement analysis: a consistent 204-byte
ELF-like file.  Raw header: `e_shoff = 64` (byte 40), `e_shentsize =
64` (byte 58), `e_shnum = 1` (byte 60); one section covering bytes
128..200 whose *data* happens to contain the SquashFS magic at byte
132; the embedded archive itself starts at byte 200 with the magic. -/
def fileC9 : List Nat :=
  (List.range 204).map fun i =>
    if i = 40 then 64 else if i = 58 then 64 else if i = 60 then 1
    else if i = 132 then 104 else if i = 133 then 115
    else if i = 134 then 113 else if i = 135 then 115
    else if i = 200 then 104 else if i = 201 then 115
    else if i = 202 then 113 else if i = 203 then 115
    else 0

/-- goblin's parse of `fileC9`: section table at 64..128, one section
at offset 128 of size 72 (so the structural offset is 200). -/
def elfC9 : ElfData :=
  { e_shoff := 64, e_shentsize := 64, e_shnum := 1
    section_headers := [⟨128, 72⟩] }

/-- Copy of `fileC9` with the in-section magic bytes zeroed out: the only magic
occurrence is the archive at byte 200. -/
def fileC9clean : List Nat :=
  (List.range 204).map fun i =>
    if i = 40 then 64 else if i = 58 then 64 else if i = 60 then 1
    else if i = 200 then 104 else if i = 201 then 115
    else if i = 202 then 113 else if i = 203 then 115
    else 0

/-- SquashFS entries forming the chain `/a → /b → /c` with `/c` a
file. -/
def sqA : SquashFSEntry := ⟨str "/a", 0, 0, .symlink (str "/b")⟩

def sqB : SquashFSEntry := ⟨str "/b", 0, 0, .symlink (str "/c")⟩

def sqC : SquashFSEntry := ⟨str "/c", 7, 0, .file⟩

/-- A SquashFS symlink pointing at its own path. -/
def sqSelf : SquashFSEntry := ⟨str "/self", 0, 0, .symlink (str "/self")⟩

/-- A SquashFS symlink whose target matches no entry. -/
def sqDang : SquashFSEntry := ⟨str "/d", 0, 0, .symlink (str "/missing")⟩

/-- DwarFS entries forming the chain `/a → /b → /c` with `/c` a file. -/
def dwA : DwarFSEntry := ⟨str "/a", 0, 0, .symlink (str "/b")⟩

def dwB : DwarFSEntry := ⟨str "/b", 0, 0, .symlink (str "/c")⟩

def dwC : DwarFSEntry := ⟨str "/c", 7, 0, .file⟩

/-- A DwarFS symlink pointing at its own path. -/
def dwSelf : DwarFSEntry := ⟨str "/self", 0, 0, .symlink (str "/self")⟩

/-- A DwarFS symlink whose target matches no entry. -/
def dwDang : DwarFSEntry := ⟨str "/d", 0, 0, .symlink (str "/missing")⟩

/-- A unified entry that is a plain file. -/
def appFile : AppImageEntry := ⟨str "/f", 3, .file⟩

/-- A unified symlink whose target matches no entry. -/
def appDang : AppImageEntry := ⟨str "/d", 0, .symlink (str "/missing")⟩

/-- A unified self-cycle: a `.desktop` symlink whose target is its own
path (as `find_desktop` would feed to the unified resolver). -/
def appCyc : AppImageEntry := ⟨str "/a.desktop", 0, .symlink (str "/a.desktop")⟩

/-- Backhand node recording the relative symlink target `usr/bin/x`. -/
def snodeC5 : SNode := ⟨str "/link", 0, .symlink (str "usr/bin/x")⟩

/-- The entry `SquashFS.entries` produces for `snodeC5`. -/
def entryC5 : SquashFSEntry := ⟨str "/link", 0, 0, .symlink (str "/usr/bin/x")⟩

/-- An svg under `/usr/share/iconsx/` — inside the source's
slash-less `/usr/share/icons` prefix, outside the claim's
`/usr/share/icons/` prefix. -/
def svgC6 : AppImageEntry := ⟨str "/usr/share/iconsx/a.svg", 0, .file⟩

/-- A png outside the icons directory. -/
def pngC6 : AppImageEntry := ⟨str "/b.png", 5, .file⟩

/-- The root DirIcon entry. -/
def dirIconE : AppImageEntry := ⟨str "/.DirIcon", 4, .file⟩

/-- Two pngs under `/usr/share/icons/`, 10 and 20 bytes. -/
def png10 : AppImageEntry := ⟨str "/usr/share/icons/a.png", 10, .file⟩

def png20 : AppImageEntry := ⟨str "/usr/share/icons/b.png", 20, .file⟩

/-- A desktop entry whose path contains an upper-case `App`. -/
def deskC7 : AppImageEntry := ⟨str "/App.desktop", 1, .file⟩

/-- An entry that is not a desktop file. -/
def plainC7 : AppImageEntry := ⟨str "/readme.txt", 1, .file⟩

/-- Backhand file node whose decompressing reader yields two good bytes
and then an I/O error; more data follows the error. -/
def nodeC10 : SNode :=
  ⟨str "/f", 0, .file 4 [.ok 7, .ok 8, .error (), .ok 9]⟩

/-! ## findIcon per the claim's words, and the amended cascade -/

/-- The icon search as claim C6 words it: ordered fallback where BOTH
branches of step 2 use the path prefix `/usr/share/icons/` (with the
trailing slash); then largest filtered png anywhere; then first
filtered svg anywhere; the winner goes through the unified resolver. -/
def find_icon_per_claim (a : AppImage) : Option AppImageEntry :=
  let step1 := a.entries.find? fun e => e.path == str "/.DirIcon"
  let png_dir := max_by_key_size <| a.entries.filter fun e =>
    let p := to_lowercase e.path
    begins_with p (str "/usr/share/icons/") && AppImage.filter_path a p &&
      ends_with p (str ".png")
  let svg_dir := a.entries.find? fun e =>
    let p := to_lowercase e.path
    begins_with p (str "/usr/share/icons/") && AppImage.filter_path a p &&
      ends_with p (str ".svg")
  let step3 := max_by_key_size <| a.entries.filter fun e =>
    let p := to_lowercase e.path
    AppImage.filter_path a p && ends_with p (str ".png")
  let step4 := a.entries.find? fun e =>
    let p := to_lowercase e.path
    AppImage.filter_path a p && ends_with p (str ".svg")
  let found :=
    match step1 with
    | some e => some e
    | none =>
      match png_dir with
      | some e => some e
      | none =>
        match svg_dir with
        | some e => some e
        | none =>
          match step3 with
          | some e => some e
          | none => step4
  found.bind fun e => AppImage.resolve_symlink a e

/-- The amended ordered fallback: as the claim words it, except that
the svg branch of step 2 uses the slash-less prefix `/usr/share/icons`,
as the source does. -/
def find_icon_amended_steps (a : AppImage) : Option AppImageEntry :=
  let step1 := a.entries.find? fun e => e.path == str "/.DirIcon"
  let png_dir := max_by_key_size <| a.entries.filter fun e =>
    let p := to_lowercase e.path
    begins_with p (str "/usr/share/icons/") && AppImage.filter_path a p &&
      ends_with p (str ".png")
  let svg_dir := a.entries.find? fun e =>
    let p := to_lowercase e.path
    begins_with p (str "/usr/share/icons") && AppImage.filter_path a p &&
      ends_with p (str ".svg")
  let step3 := max_by_key_size <| a.entries.filter fun e =>
    let p := to_lowercase e.path
    AppImage.filter_path a p && ends_with p (str ".png")
  let step4 := a.entries.find? fun e =>
    let p := to_lowercase e.path
    AppImage.filter_path a p && ends_with p (str ".svg")
  let found :=
    match step1 with
    | some e => some e
    | none =>
      match png_dir with
      | some e => some e
      | none =>
        match svg_dir with
        | some e => some e
        | none =>
          match step3 with
          | some e => some e
          | none => step4
  found.bind fun e => AppImage.resolve_symlink a e

/-! ## Helper lemmas -/

/-- Lemma: `List.find?` returns the first satisfying element. -/
theorem find?_first_of_front_none {α : Type} (p : α → Bool)
    (l₁ l₂ : List α) (e : α)
    (h1 : ∀ x ∈ l₁, p x = false) (h2 : p e = true) :
    (l₁ ++ e :: l₂).find? p = some e := by
  induction l₁ with
  | nil => simpa using List.find?_cons_of_pos l₂ h2
  | cons x xs ih =>
    have hx : ¬p x = true := by
      simp [h1 x (List.mem_cons_self _ _)]
    have hrest := ih fun y hy => h1 y (List.mem_cons_of_mem _ hy)
    rw [List.cons_append, List.find?_cons_of_neg _ hx, hrest]

/-- Lemma: `path_join` preserves absoluteness of the base. -/
theorem path_join_abs (base name : List Char) (hb : base.head? = some '/') :
    (path_join base name).head? = some '/' := by
  unfold path_join
  split
  · next h =>
    cases name with
    | nil => simp [str, begins_with] at h
    | cons c t => simp_all [str, begins_with]
  · split
    · cases base with
      | nil => simp at hb
      | cons b bs => simpa using hb
    · cases base with
      | nil => simp at hb
      | cons b bs => simpa using hb

/-- The targets recorded under one more tree child. -/
theorem tree_targets_cons (name : List Char) (inode : DInode)
    (rest : List (List Char × DInode)) :
    DwarFS.tree_targets ((name, inode) :: rest) =
      (match inode with
       | .directory _ children => DwarFS.tree_targets children
       | .symlink _ target => [target]
       | _ => []) ++ DwarFS.tree_targets rest := by
  cases inode with
  | directory m children => rw [DwarFS.tree_targets.eq_2]
  | symlink m target => rw [DwarFS.tree_targets.eq_3]
  | file m chunks =>
    rw [DwarFS.tree_targets.eq_4 name _ rest (fun _ _ h => by cases h)
      (fun _ _ h => by cases h)]
  | device m =>
    rw [DwarFS.tree_targets.eq_4 name _ rest (fun _ _ h => by cases h)
      (fun _ _ h => by cases h)]
  | ipc m =>
    rw [DwarFS.tree_targets.eq_4 name _ rest (fun _ _ h => by cases h)
      (fun _ _ h => by cases h)]
  | other m =>
    rw [DwarFS.tree_targets.eq_4 name _ rest (fun _ _ h => by cases h)
      (fun _ _ h => by cases h)]

/-- Every entry emitted by the DwarFS walk from an absolute base has an
absolute path. -/
theorem walk_dir_path_abs (cs : List (List Char × DInode)) (base : List Char) :
    base.head? = some '/' →
    ∀ e ∈ DwarFS.walk_dir cs base, e.path.head? = some '/' := by
  induction cs, base using DwarFS.walk_dir.induct with
  | case1 base =>
    intro hb e he
    rw [DwarFS.walk_dir.eq_1] at he
    exact absurd he (List.not_mem_nil e)
  | case2 name inode rest base path ih1 ih2 =>
    intro hb e he
    cases inode with
    | directory m children =>
      rw [DwarFS.walk_dir.eq_2] at he
      simp only [List.cons_append, List.mem_cons, List.mem_append] at he
      rcases he with rfl | he' | he'
      · exact path_join_abs base name hb
      · exact ih1 (path_join_abs base name hb) e he'
      · exact ih2 hb e he'
    | file m chunks =>
      rw [DwarFS.walk_dir.eq_3] at he
      simp only [List.cons_append, List.nil_append, List.mem_cons] at he
      rcases he with rfl | he'
      · exact path_join_abs base name hb
      · exact ih2 hb e he'
    | symlink m target =>
      rw [DwarFS.walk_dir.eq_4] at he
      simp only [List.cons_append, List.nil_append, List.mem_cons] at he
      rcases he with rfl | he'
      · exact path_join_abs base name hb
      · exact ih2 hb e he'
    | device m =>
      rw [DwarFS.walk_dir.eq_5] at he
      simp only [List.cons_append, List.nil_append, List.mem_cons] at he
      rcases he with rfl | he'
      · exact path_join_abs base name hb
      · exact ih2 hb e he'
    | ipc m =>
      rw [DwarFS.walk_dir.eq_6] at he
      simp only [List.cons_append, List.nil_append, List.mem_cons] at he
      rcases he with rfl | he'
      · exact path_join_abs base name hb
      · exact ih2 hb e he'
    | other m =>
      rw [DwarFS.walk_dir.eq_7] at he
      simp only [List.cons_append, List.nil_append, List.mem_cons] at he
      rcases he with rfl | he'
      · exact path_join_abs base name hb
      · exact ih2 hb e he'

/-- Every symlink entry emitted by the DwarFS walk carries a target
recorded verbatim somewhere in the tree. -/
theorem walk_dir_target_raw (cs : List (List Char × DInode)) (base : List Char) :
    ∀ e ∈ DwarFS.walk_dir cs base, ∀ t, e.kind = .symlink t →
      t ∈ DwarFS.tree_targets cs := by
  induction cs, base using DwarFS.walk_dir.induct with
  | case1 base =>
    intro e he
    rw [DwarFS.walk_dir.eq_1] at he
    exact absurd he (List.not_mem_nil e)
  | case2 name inode rest base path ih1 ih2 =>
    intro e he t hk
    rw [tree_targets_cons]
    cases inode with
    | directory m children =>
      rw [DwarFS.walk_dir.eq_2] at he
      simp only [List.cons_append, List.mem_cons, List.mem_append] at he
      rcases he with rfl | he' | he'
      · simp at hk
      · exact List.mem_append.mpr (Or.inl (ih1 e he' t hk))
      · exact List.mem_append.mpr (Or.inr (ih2 e he' t hk))
    | file m chunks =>
      rw [DwarFS.walk_dir.eq_3] at he
      simp only [List.cons_append, List.nil_append, List.mem_cons] at he
      rcases he with rfl | he'
      · simp at hk
      · exact List.mem_append.mpr (Or.inr (ih2 e he' t hk))
    | symlink m target =>
      rw [DwarFS.walk_dir.eq_4] at he
      simp only [List.cons_append, List.nil_append, List.mem_cons] at he
      rcases he with rfl | he'
      · simp at hk
        simp [hk]
      · exact List.mem_append.mpr (Or.inr (ih2 e he' t hk))
    | device m =>
      rw [DwarFS.walk_dir.eq_5] at he
      simp only [List.cons_append, List.nil_append, List.mem_cons] at he
      rcases he with rfl | he'
      · simp at hk
      · exact List.mem_append.mpr (Or.inr (ih2 e he' t hk))
    | ipc m =>
      rw [DwarFS.walk_dir.eq_6] at he
      simp only [List.cons_append, List.nil_append, List.mem_cons] at he
      rcases he with rfl | he'
      · simp at hk
      · exact List.mem_append.mpr (Or.inr (ih2 e he' t hk))
    | other m =>
      rw [DwarFS.walk_dir.eq_7] at he
      simp only [List.cons_append, List.nil_append, List.mem_cons] at he
      rcases he with rfl | he'
      · simp at hk
      · exact List.mem_append.mpr (Or.inr (ih2 e he' t hk))

/-- The sliding scan finds the first window-aligned magic occurrence:
if no window at byte offsets `0, 4, …, 4(n-1)` matches and the window
at `4n` does, the scan started at stream position `pos` returns
`pos + 4n`. -/
theorem squashfs_scan_first_aligned :
    ∀ (n : Nat) (l : List Nat) (pos : Nat),
      (∀ i, i < n → (l.drop (4 * i)).take 4 ≠ SQUASHFS_MAGIC) →
      (l.drop (4 * n)).take 4 = SQUASHFS_MAGIC →
      squashfs_scan l pos = some (pos + 4 * n) := by
  intro n
  induction n with
  | zero =>
    intro l pos _ hmag
    simp only [Nat.mul_zero, List.drop_zero] at hmag
    cases l with
    | nil => simp [SQUASHFS_MAGIC] at hmag
    | cons a l1 =>
      cases l1 with
      | nil => simp [SQUASHFS_MAGIC] at hmag
      | cons b l2 =>
        cases l2 with
        | nil => simp [SQUASHFS_MAGIC] at hmag
        | cons c l3 =>
          cases l3 with
          | nil => simp [SQUASHFS_MAGIC] at hmag
          | cons d r =>
            simp only [List.take_succ_cons, List.take_zero] at hmag
            simp [squashfs_scan, hmag]
  | succ n ih =>
    intro l pos hmiss hmag
    have h4 : 4 * (n + 1) = 4 * n + 4 := by ring
    rw [h4] at hmag
    have h0 : l.take 4 ≠ SQUASHFS_MAGIC := by
      simpa using hmiss 0 (Nat.succ_pos n)
    cases l with
    | nil => simp [SQUASHFS_MAGIC] at hmag
    | cons a l1 =>
      cases l1 with
      | nil => simp [SQUASHFS_MAGIC] at hmag
      | cons b l2 =>
        cases l2 with
        | nil => simp [SQUASHFS_MAGIC] at hmag
        | cons c l3 =>
          cases l3 with
          | nil => simp [SQUASHFS_MAGIC] at hmag
          | cons d r =>
            simp only [List.drop_succ_cons] at hmag
            have h0' : ¬([a, b, c, d] = SQUASHFS_MAGIC) := by
              simpa using h0
            have hmiss' : ∀ i, i < n →
                (r.drop (4 * i)).take 4 ≠ SQUASHFS_MAGIC := by
              intro i hi
              have := hmiss (i + 1) (by omega)
              have h4i : 4 * (i + 1) = 4 * i + 4 := by ring
              rw [h4i] at this
              simpa [List.drop_succ_cons] using this
            have hrec := ih r (pos + 4) hmiss' hmag
            rw [squashfs_scan]
            simp only [h0', if_false]
            rw [hrec]
            congr 1
            ring

/-! ## Claim C1 — structural offset locator -/

/-- C1, counterexample.  The claim says the second candidate is the
maximum of `sh_offset + sh_size` over ALL section headers; on `elfC1`
(last declared section ends at 205, an earlier one at 1050) the source
computation returns 205 while the claim's formula returns 1050. -/
theorem c1_counterexample :
    get_offset elfC1 = 205
    ∧ get_offset_spec_words elfC1 = 1050
    ∧ get_offset elfC1 ≠ get_offset_spec_words elfC1 := by decide

/-- C1, amended.  For every successfully parsed ELF, the structural
offset locator returns `max(sectionTableEnd, lastDeclaredSectionEnd)`,
where `lastDeclaredSectionEnd` is `sh_offset + sh_size` of the section
appearing LAST in declaration order (0 for an empty table) — not the
maximum over all sections. -/
theorem c1_amended_last_declared (elf : ElfData) :
    get_offset elf =
      max (elf.e_shoff + elf.e_shentsize * elf.e_shnum)
        ((elf.section_headers.map fun s => s.sh_offset + s.sh_size).getLastD 0) := by
  unfold get_offset
  simp [List.getLastD_eq_getLast?, List.getLast?_map]

/-! ## Claim C2 — resolver behaviours on the four scenarios -/

/-- C2, counterexample.  The claim asserts resolve() on a non-symlink
entry returns None for every resolver including the unified AppImage
one; the unified resolver instead returns the entry itself. -/
theorem c2_counterexample :
    AppImage.resolve_symlink ⟨none, [appFile]⟩ appFile = some appFile
    ∧ AppImageEntryKind.is_symlink appFile.kind = false
    ∧ some appFile ≠ (none : Option AppImageEntry) := by decide

/-- C2, amended.  For the SquashFS and DwarFS resolvers: a non-symlink
entry resolves to `None`; the chain `/a → /b → /c` resolves to the file
`/c`; the self-cycle fails with the symlink-cycle error; a dangling
target resolves to `None`.  The unified AppImage resolver differs: a
non-symlink entry resolves to itself (at any recursion depth), and a
dangling target resolves to `None`; it performs no cycle detection
(claim C3). -/
theorem c2_amended_resolvers :
    (∀ (es : List SquashFSEntry) (e : SquashFSEntry),
        SEntryKind.is_symlink e.kind = false →
        SquashFS.resolve_symlink es e = some (.ok none))
    ∧ SquashFS.resolve_symlink [sqA, sqB, sqC] sqA = some (.ok (some sqC))
    ∧ SquashFS.resolve_symlink [sqSelf] sqSelf = some (.error .symlinkError)
    ∧ SquashFS.resolve_symlink [sqDang] sqDang = some (.ok none)
    ∧ (∀ (es : List DwarFSEntry) (e : DwarFSEntry),
        DwarFSEntryKind.is_symlink e.kind = false →
        DwarFS.resolve_symlink es e = some (.ok none))
    ∧ DwarFS.resolve_symlink [dwA, dwB, dwC] dwA = some (.ok (some dwC))
    ∧ DwarFS.resolve_symlink [dwSelf] dwSelf = some (.error .symlinkError)
    ∧ DwarFS.resolve_symlink [dwDang] dwDang = some (.ok none)
    ∧ (∀ (es : List AppImageEntry) (e : AppImageEntry) (fuel : Nat),
        AppImageEntryKind.is_symlink e.kind = false →
        AppImage.resolve_symlink_fuel es (fuel + 1) e = some (some e))
    ∧ AppImage.resolve_symlink ⟨none, [appDang]⟩ appDang = none := by
  refine ⟨?_, by decide, by decide, by decide, ?_, by decide, by decide,
    by decide, ?_, by decide⟩
  · intro es e h
    cases hk : e.kind <;>
      simp_all [SquashFS.resolve_symlink, SEntryKind.is_symlink]
  · intro es e h
    cases hk : e.kind <;>
      simp_all [DwarFS.resolve_symlink, DwarFSEntryKind.is_symlink]
  · intro es e fuel h
    cases hk : e.kind <;>
      simp_all [AppImage.resolve_symlink_fuel, AppImageEntryKind.is_symlink]

/-- C2, witness: the amended theorem applied to a concrete non-symlink
SquashFS entry. -/
theorem c2_witness : SquashFS.resolve_symlink [sqC] sqC = some (.ok none) :=
  c2_amended_resolvers.1 [sqC] sqC rfl

/-! ## Claim C3 — termination of symlink resolution -/

/-- C3, divergence witness.  On the self-cycle `/a.desktop →
/a.desktop` the unified AppImage resolver (which seeds no visited set)
completes at NO recursion depth: the embedded recursion returns the
out-of-budget marker for every budget, i.e. the source function
recurses forever where the claim promises termination. -/
theorem c3_bug_appimage_cycle_diverges :
    ∀ fuel : Nat,
      AppImage.resolve_symlink_fuel [appCyc] fuel appCyc = none := by
  intro fuel
  induction fuel with
  | zero => rfl
  | succ n ih => exact ih

/-! ## Claim C4 — brute-force magic scans -/

/-- C4, divergence witness.  The SquashFS scan never seeks back, so on
the file `[0x00, 'h', 's', 'q', 's']` with the magic at offset 1 it
reports not-found even though the magic is present, while the DwarFS
scan (which does seek back 5 bytes) finds its magic at offset 1 of the
analogous file. -/
theorem c4_bug_squashfs_scan_misses_unaligned :
    find_squashfs_offset [0, 104, 115, 113, 115] = none
    ∧ window [0, 104, 115, 113, 115] 1 4 = SQUASHFS_MAGIC
    ∧ find_dwarfs_offset [0, 68, 87, 65, 82, 70, 83] = some 1 := by decide

/-! ## Claim C5 — raw symlink targets, archive-absolute paths -/

/-- C5, counterexample.  The SquashFS backend does not store the raw
recorded target: for a node whose archive records the relative target
`usr/bin/x`, the produced entry stores `/usr/bin/x`. -/
theorem c5_counterexample :
    SquashFS.entries [snodeC5] = [entryC5]
    ∧ entryC5.kind = SEntryKind.symlink (str "/usr/bin/x")
    ∧ snodeC5.inner = SInner.symlink (str "usr/bin/x")
    ∧ str "/usr/bin/x" ≠ str "usr/bin/x" :=
  ⟨by decide, by decide, rfl, by decide⟩

/-- C5, amended.  SquashFS entry paths are the codec's `fullpath`
verbatim, and every SquashFS symlink entry stores `'/'` prepended to
the raw recorded target; DwarFS walk entries have archive-absolute
paths (they begin with `/`), and every DwarFS symlink entry stores a
target recorded verbatim in the archive tree. -/
theorem c5_amended_targets_and_paths :
    (∀ (nodes : List SNode) (e : SquashFSEntry), e ∈ SquashFS.entries nodes →
        ∃ n ∈ nodes, e.path = n.fullpath)
    ∧ (∀ (nodes : List SNode) (e : SquashFSEntry), e ∈ SquashFS.entries nodes →
        ∀ t, e.kind = .symlink t →
          ∃ n ∈ nodes, ∃ raw, n.inner = SInner.symlink raw ∧
            t = '/' :: raw ∧ e.path = n.fullpath)
    ∧ (∀ (cs : List (List Char × DInode)) (e : DwarFSEntry),
        e ∈ DwarFS.entries cs → e.path.head? = some '/')
    ∧ (∀ (cs : List (List Char × DInode)) (e : DwarFSEntry),
        e ∈ DwarFS.entries cs → ∀ t, e.kind = .symlink t →
          t ∈ DwarFS.tree_targets cs) := by
  refine ⟨?_, ?_, ?_, ?_⟩
  · intro nodes e he
    rcases List.mem_map.mp he with ⟨n, hn, rfl⟩
    exact ⟨n, hn, rfl⟩
  · intro nodes e he t hk
    rcases List.mem_map.mp he with ⟨n, hn, rfl⟩
    cases hin : n.inner with
    | file len stream => simp [SquashFS.entries, hin] at hk
    | dir => simp [SquashFS.entries, hin] at hk
    | symlink link =>
      simp only [SquashFS.entries, hin] at hk
      exact ⟨n, hn, link, hin, by simpa using hk.symm, rfl⟩
    | other => simp [SquashFS.entries, hin] at hk
  · intro cs e he
    exact walk_dir_path_abs cs (str "/") rfl e he
  · intro cs e he t hk
    exact walk_dir_target_raw cs (str "/") e he t hk

/-- C5, witness: the amended theorem applied to the concrete node
recording the relative target `usr/bin/x`. -/
theorem c5_witness :
    ∃ n ∈ [snodeC5], ∃ raw, n.inner = SInner.symlink raw ∧
      str "/usr/bin/x" = '/' :: raw ∧ entryC5.path = n.fullpath :=
  c5_amended_targets_and_paths.2.1 [snodeC5] entryC5 (by decide)
    (str "/usr/bin/x") rfl

/-! ## Claim C6 — findIcon ordered fallback -/

/-- C6, counterexample.  On an archive holding only
`/usr/share/iconsx/a.svg` and `/b.png` (no filter), the source returns
the svg — its step-2 svg branch uses the slash-less prefix
`/usr/share/icons`, which `/usr/share/iconsx/…` matches — while the
claim's algorithm (trailing slash in both step-2 branches) returns the
png from step 3. -/
theorem c6_counterexample :
    AppImage.find_icon ⟨none, [svgC6, pngC6]⟩ = some svgC6
    ∧ find_icon_per_claim ⟨none, [svgC6, pngC6]⟩ = some pngC6
    ∧ svgC6 ≠ pngC6 := by decide

/-- C6, amended.  `find_icon` follows the ordered fallback with the
first successful step winning and the winner resolved, where the svg
branch of step 2 uses the slash-less prefix `/usr/share/icons`; in
particular an archive containing only `/.DirIcon` yields that entry for
every filter value, and the larger of two pngs under
`/usr/share/icons/` (sizes 10 and 20) wins. -/
theorem c6_amended_ordered_fallback :
    (∀ fl : Option (List Char),
        AppImage.find_icon ⟨fl, [dirIconE]⟩ = some dirIconE)
    ∧ AppImage.find_icon ⟨none, [png10, png20]⟩ = some png20
    ∧ ∀ a : AppImage, AppImage.find_icon a = find_icon_amended_steps a := by
  refine ⟨fun fl => rfl, by decide, ?_⟩
  intro a
  unfold AppImage.find_icon find_icon_amended_steps AppImage.search_diricon
    AppImage.find_largest_icon_path AppImage.find_png_icon AppImage.find_svg_icon
  cases h1 : a.entries.find? fun e => e.path == str "/.DirIcon" <;>
    simp [Option.orElse] <;>
  cases h2 : max_by_key_size (a.entries.filter fun e =>
      let p := to_lowercase e.path
      begins_with p (str "/usr/share/icons/") && AppImage.filter_path a p &&
        ends_with p (str ".png")) <;>
    simp [Option.orElse] <;>
  cases h3 : a.entries.find? fun e =>
      let p := to_lowercase e.path
      begins_with p (str "/usr/share/icons") && AppImage.filter_path a p &&
        ends_with p (str ".svg") <;>
    simp [Option.orElse] <;>
  cases h4 : max_by_key_size (a.entries.filter fun e =>
      let p := to_lowercase e.path
      AppImage.filter_path a p && ends_with p (str ".png")) <;>
    simp [Option.orElse]

/-! ## Claim C7 — case-insensitive filter, findDesktop -/

/-- C7, counterexample.  The caller's filter is NOT lower-cased: with
the upper-case filter `APP`, `find_desktop` misses `/App.desktop`
(whose lower-cased path does contain the lower-cased filter), while the
lower-case filter `app` finds it — the result does depend on the letter
case in which the caller wrote the filter. -/
theorem c7_counterexample :
    AppImage.find_desktop ⟨some (str "APP"), [deskC7]⟩ = none
    ∧ AppImage.find_desktop ⟨some (str "app"), [deskC7]⟩ = some deskC7
    ∧ contains_sub (to_lowercase (str "/App.desktop"))
        (to_lowercase (str "APP")) = true := by decide

/-- C7, amended.  A `None` filter always passes, and a `Some` filter is
matched verbatim (case-sensitively) as a substring of the lower-cased
entry path; `find_desktop` returns the first traversal-order entry
whose lower-cased path ends with `.desktop` and passes the filter,
passed through the unified resolver. -/
theorem c7_amended_filter_semantics :
    (∀ (es : List AppImageEntry) (p : List Char),
        AppImage.filter_path ⟨none, es⟩ p = true)
    ∧ (∀ (fl : Option (List Char)) (l₁ l₂ : List AppImageEntry)
        (e : AppImageEntry),
        (∀ x ∈ l₁, AppImage.desktop_pred ⟨fl, l₁ ++ e :: l₂⟩ x = false) →
        AppImage.desktop_pred ⟨fl, l₁ ++ e :: l₂⟩ e = true →
        AppImage.find_desktop ⟨fl, l₁ ++ e :: l₂⟩ =
          AppImage.resolve_symlink ⟨fl, l₁ ++ e :: l₂⟩ e) := by
  constructor
  · intro es p
    rfl
  · intro fl l₁ l₂ e hnone hyes
    have hfind := find?_first_of_front_none
      (AppImage.desktop_pred ⟨fl, l₁ ++ e :: l₂⟩) l₁ l₂ e hnone hyes
    simp [AppImage.find_desktop, hfind]

/-- C7, witness: the amended theorem applied to a concrete archive
where the desktop entry is preceded by a non-matching entry. -/
theorem c7_witness :
    AppImage.find_desktop ⟨some (str "app"), [plainC7, deskC7]⟩ =
      AppImage.resolve_symlink ⟨some (str "app"), [plainC7, deskC7]⟩ deskC7 :=
  c7_amended_filter_semantics.2 (some (str "app")) [plainC7] [] deskC7
    (by decide) (by decide)

/-! ## Claim C8 — permissions only after the stream -/

/-- C8, counterexample.  The SquashFS extraction path sets the
permission bits immediately after creating the destination; a copy that
fails mid-stream leaves the destination with the archive's permissions
already applied to partial content. -/
theorem c8_counterexample :
    (SquashFS.write_file_with_permissions_trace 420 false).1 =
      [FsEvent.create, FsEvent.setPerms 420, FsEvent.streamFailed]
    ∧ perms_only_after_stream
        (SquashFS.write_file_with_permissions_trace 420 false).1 = false := by
  decide

/-- C8, amended.  The DwarFS and unified-AppImage extraction paths
apply the recorded permission bits only after the byte stream completed
successfully; the SquashFS path instead sets them right after creating
the destination, before streaming, for every mode and stream
outcome. -/
theorem c8_amended_perm_ordering :
    ∀ (mode : Nat) (ok : Bool),
      perms_only_after_stream
          (DwarFS.write_file_with_permissions_trace mode ok).1 = true
      ∧ perms_only_after_stream
          (AppImage.write_entry_with_permissions_trace mode ok).1 = true
      ∧ (SquashFS.write_file_with_permissions_trace mode ok).1 =
          FsEvent.create :: FsEvent.setPerms mode ::
            (if ok then [FsEvent.streamDone] else [FsEvent.streamFailed]) := by
  intro mode ok
  cases ok <;>
    simp [DwarFS.write_file_with_permissions_trace,
      AppImage.write_entry_with_permissions_trace,
      SquashFS.write_file_with_permissions_trace, perms_only_after_stream]

/-! ## Claim C9 — agreement of structural offset and magic scan -/

set_option maxRecDepth 8000 in
/-- C9, counterexample.  `fileC9` is consistent with its parse `elfC9`
and carries the archive magic at the structural offset 200, yet the
brute-force scan returns 132 (the magic bytes also occur inside section
data), so the two applicable algorithms disagree. -/
theorem c9_counterexample :
    elf_consistent fileC9 elfC9 = true
    ∧ window fileC9 (get_offset elfC9) 4 = SQUASHFS_MAGIC
    ∧ find_squashfs_offset fileC9 = some 132
    ∧ get_offset elfC9 = 200
    ∧ (132 : Nat) ≠ 200 := by decide

/-- C9, amended.  The two algorithms agree whenever the magic sits at
the structural offset, that offset is one the scan visits (a multiple
of its 4-byte stride), and no scan-visited position before it holds the
magic. -/
theorem c9_amended_agreement (file : List Nat) (elf : ElfData)
    (hmag : window file (get_offset elf) 4 = SQUASHFS_MAGIC)
    (hfirst : ∀ k, k < get_offset elf → k % 4 = 0 →
      window file k 4 ≠ SQUASHFS_MAGIC)
    (halign : get_offset elf % 4 = 0) :
    find_squashfs_offset file = some (get_offset elf) := by
  obtain ⟨n, hn⟩ : ∃ n, get_offset elf = 4 * n :=
    ⟨get_offset elf / 4, by omega⟩
  rw [hn] at hmag ⊢
  unfold find_squashfs_offset
  have hmiss : ∀ i, i < n → (file.drop (4 * i)).take 4 ≠ SQUASHFS_MAGIC := by
    intro i hi
    exact hfirst (4 * i) (by omega) (by omega)
  have := squashfs_scan_first_aligned n file 0 hmiss hmag
  simpa using this

set_option maxRecDepth 8000 in
/-- C9, witness: on the cleaned host file whose only magic occurrence
is the archive at the structural offset 200, the scan agrees. -/
theorem c9_witness : find_squashfs_offset fileC9clean = some 200 :=
  c9_amended_agreement fileC9clean elfC9 (by decide) (by decide) (by decide)

/-! ## Claim C10 — read_file swallows stream errors -/

/-- C10, confirmed.  For every path present as a file in the node list,
`read_file` returns `Ok` (never an I/O error from its byte loop); and
the byte loop keeps exactly the bytes before the reader's first error,
stopping silently there — so a successful return does not guarantee the
full contents. -/
theorem c10_read_file_swallows :
    (∀ (nodes : List SNode) (path : List Char),
        (∃ n ∈ nodes, n.fullpath = path ∧ SInner.is_file n.inner = true) →
        ∃ bs, SquashFS.read_file nodes path = Except.ok bs)
    ∧ (∀ (good : List Nat) (rest : List (Except Unit Nat)),
        SquashFS.stream_prefix_ok
          (good.map Except.ok ++ Except.error () :: rest) = good) := by
  constructor
  · intro nodes path h
    induction nodes with
    | nil => simp at h
    | cons n rest ih =>
      obtain ⟨m, hm, hpath, hfile⟩ := h
      by_cases hnp : n.fullpath = path
      · cases hin : n.inner with
        | file len stream =>
          exact ⟨SquashFS.stream_prefix_ok stream,
            by simp [SquashFS.read_file, hnp, hin]⟩
        | dir =>
          rcases List.mem_cons.mp hm with rfl | hmem
          · simp [SInner.is_file, hin] at hfile
          · obtain ⟨bs, hbs⟩ := ih ⟨m, hmem, hpath, hfile⟩
            exact ⟨bs, by simpa [SquashFS.read_file, hnp, hin] using hbs⟩
        | symlink link =>
          rcases List.mem_cons.mp hm with rfl | hmem
          · simp [SInner.is_file, hin] at hfile
          · obtain ⟨bs, hbs⟩ := ih ⟨m, hmem, hpath, hfile⟩
            exact ⟨bs, by simpa [SquashFS.read_file, hnp, hin] using hbs⟩
        | other =>
          rcases List.mem_cons.mp hm with rfl | hmem
          · simp [SInner.is_file, hin] at hfile
          · obtain ⟨bs, hbs⟩ := ih ⟨m, hmem, hpath, hfile⟩
            exact ⟨bs, by simpa [SquashFS.read_file, hnp, hin] using hbs⟩
      · rcases List.mem_cons.mp hm with rfl | hmem
        · exact absurd hpath hnp
        · obtain ⟨bs, hbs⟩ := ih ⟨m, hmem, hpath, hfile⟩
          exact ⟨bs, by simpa [SquashFS.read_file, hnp] using hbs⟩
  · intro good rest
    induction good with
    | nil => rfl
    | cons b bs ih => simpa [SquashFS.stream_prefix_ok] using ih

/-- C10, witness: the theorem applied to a node whose reader errors
after two bytes. -/
theorem c10_witness :
    ∃ bs, SquashFS.read_file [nodeC10] (str "/f") = Except.ok bs :=
  c10_read_file_swallows.1 [nodeC10] (str "/f")
    ⟨nodeC10, List.mem_cons_self _ _, rfl, rfl⟩
